import Mathlib

/-!
Verification development for the typeologist font-extraction pipeline
(src/index.js). The JavaScript source is shallowly embedded: pure string
processing becomes Lean functions on `String`/`List Char`, the network and
filesystem are explicit oracles passed as functions, and promise batching
becomes chunked list mapping. JavaScript string primitives (`split`,
`endsWith`, `toLowerCase`, `trim`, regex matching) are modelled by
executable Lean functions on the character list of the string; for the
ASCII inputs handled here JS UTF-16 code units and Lean characters agree.
-/

set_option maxRecDepth 10000

namespace Typeologist

/-! ### JavaScript string primitives -/

/-- Character class of the regex delimiter set used by every URL pattern in
`extractUrlsFromText`: whitespace, double and single quote, angle brackets,
curly braces, pipe, backslash, caret, backtick and square brackets. -/
def urlDelim (c : Char) : Bool :=
  c.isWhitespace || c == '"' || c == Char.ofNat 39 || c == '<' || c == '>' ||
  c == Char.ofNat 123 || c == Char.ofNat 125 || c == '|' || c == Char.ofNat 92 ||
  c == '^' || c == Char.ofNat 96 || c == Char.ofNat 91 || c == Char.ofNat 93

def nonDelimChar (c : Char) : Bool := !(urlDelim c)

/-- The class `[a-zA-Z0-9]`. -/
def alnumChar (c : Char) : Bool := c.isAlpha || c.isDigit

/-- The class `[a-zA-Z0-9-]`. -/
def alnumDashChar (c : Char) : Bool := alnumChar c || c == '-'

/-- Models `String.prototype.startsWith`. -/
def jsStartsWith (s p : String) : Bool := p.toList.isPrefixOf s.toList

/-- Models `String.prototype.endsWith`. -/
def jsEndsWith (s p : String) : Bool := p.toList.isSuffixOf s.toList

/-- Models `String.prototype.toLowerCase` (ASCII; the program only compares
ASCII extensions and path segments). -/
def jsToLower (s : String) : String := String.mk (s.toList.map Char.toLower)

/-- Models `String.prototype.trim`. -/
def jsTrim (s : String) : String :=
  String.mk (((s.toList.dropWhile Char.isWhitespace).reverse.dropWhile
    Char.isWhitespace).reverse)

/-- Splitting a character list at every occurrence of `sep`; models the
behaviour of `String.prototype.split` with a single-character separator
(the result is never empty, and empty fields are kept). -/
def splitCharList (sep : Char) : List Char → List (List Char)
  | [] => [[]]
  | c :: cs =>
    let rest := splitCharList sep cs
    if c == sep then [] :: rest
    else
      match rest with
      | [] => [[c]]
      | g :: gs => (c :: g) :: gs

/-- Models `String.prototype.split` with a one-character separator. -/
def jsSplit (sep : Char) (s : String) : List String :=
  (splitCharList sep s.toList).map String.mk

/-! ### A backtracking regex matcher

The four URL patterns of `extractUrlsFromText` are fixed regular
expressions; they are represented by the syntax `RE` below and matched with
a continuation-passing backtracking matcher that implements the JavaScript
(leftmost, greedy, chronological-backtracking) match semantics. The `fuel`
argument only bounds the recursion depth; `textLength + RE.size + 2` always
suffices because every star iteration of the patterns used here consumes at
least one character. -/

inductive RE where
  | eps : RE
  | cls (p : Char → Bool) : RE
  | seq (a b : RE) : RE
  | opt (a : RE) : RE
  | star (a : RE) : RE

def RE.size : RE → Nat
  | .eps => 1
  | .cls _ => 1
  | .seq a b => a.size + b.size + 1
  | .opt a => a.size + 1
  | .star a => a.size + 1

def RE.plus (a : RE) : RE := .seq a (.star a)

/-- Greedy bounded repetition, the quantifier of shape between braces 0,n. -/
def RE.repMax (a : RE) : Nat → RE
  | 0 => .eps
  | n + 1 => .opt (.seq a (RE.repMax a n))

/-- Literal character (exact). -/
def chrRE (c : Char) : RE := .cls (fun x => x == c)

/-- Literal character under the case-insensitive flag `i`; `c` is given in
lower case. -/
def ciChrRE (c : Char) : RE := .cls (fun x => x.toLower == c)

/-- CPS backtracking matcher. Greedy alternatives are tried first, so the
first success found is the one the JS engine reports. Returns the remaining
input on success. -/
def matchRE : Nat → RE → List Char → (List Char → Option (List Char)) →
    Option (List Char)
  | 0, _, _, _ => none
  | _ + 1, .eps, cs, k => k cs
  | _ + 1, .cls p, cs, k =>
    match cs with
    | [] => none
    | c :: rest => if p c then k rest else none
  | fuel + 1, .seq a b, cs, k =>
    matchRE fuel a cs (fun cs1 => matchRE fuel b cs1 k)
  | fuel + 1, .opt a, cs, k =>
    match matchRE fuel a cs k with
    | some r => some r
    | none => k cs
  | fuel + 1, .star a, cs, k =>
    match matchRE fuel a cs (fun cs1 =>
        if cs1.length < cs.length then matchRE fuel (.star a) cs1 k
        else none) with
    | some r => some r
    | none => k cs

/-- Attempt a match of `re` anchored at the start of `cs`; on success return
the number of characters consumed. -/
def matchAt (re : RE) (cs : List Char) : Option Nat :=
  match matchRE (cs.length + re.size + 2) re cs some with
  | some rest => some (cs.length - rest.length)
  | none => none

/-- All successive non-overlapping matches from left to right; models the
global `g` flag of `String.prototype.match`. -/
def scanAll (re : RE) : Nat → List Char → List (List Char)
  | 0, _ => []
  | _, [] => []
  | fuel + 1, c :: cs =>
    match matchAt re (c :: cs) with
    | none => scanAll re fuel cs
    | some 0 => [] :: scanAll re fuel cs
    | some (n + 1) => (c :: cs).take (n + 1) :: scanAll re fuel ((c :: cs).drop (n + 1))

/-- Models `text.match(re)` for a global regex: the list of all matches in
order (empty list when the JS call returns null). -/
def jsMatch (re : RE) (text : String) : List String :=
  (scanAll re (text.toList.length + 1) text.toList).map String.mk

/-! ### The four URL patterns of `extractUrlsFromText` -/

/-- First source pattern: absolute http or https URLs,
`https?:\/\/[^\s"'<>{}|\\^`...]+` with flags `gi`. -/
def pat1 : RE :=
  .seq (ciChrRE 'h') (.seq (ciChrRE 't') (.seq (ciChrRE 't') (.seq (ciChrRE 'p')
    (.seq (.opt (ciChrRE 's')) (.seq (chrRE ':') (.seq (chrRE '/')
      (.seq (chrRE '/') (RE.plus (.cls nonDelimChar)))))))))

/-- Second source pattern: protocol-relative URLs, two slashes followed by
one or more non-delimiter characters. -/
def pat2 : RE := .seq (chrRE '/') (.seq (chrRE '/') (RE.plus (.cls nonDelimChar)))

/-- One DNS-style label `[a-zA-Z0-9]([a-zA-Z0-9-]{0,61}[a-zA-Z0-9])?`. -/
def labelRE : RE :=
  .seq (.cls alnumChar)
    (.opt (.seq (RE.repMax (.cls alnumDashChar) 61) (.cls alnumChar)))

/-- The run `[a-zA-Z]{2,}`. -/
def alphaRun2 : RE := .seq (.cls Char.isAlpha) (RE.plus (.cls Char.isAlpha))

/-- Third source pattern: bare hostnames, dot-separated labels with an
alphabetic final label of length at least two, optionally followed by a
slash-initial path of non-delimiter characters. -/
def pat3 : RE :=
  .seq labelRE (.seq (.star (.seq (chrRE '.') labelRE))
    (.seq (chrRE '.') (.seq alphaRun2
      (.opt (.seq (chrRE '/') (.star (.cls nonDelimChar)))))))

/-- Fourth source pattern: root-relative paths, a slash followed by one or
more non-delimiter characters. -/
def pat4 : RE := .seq (chrRE '/') (RE.plus (.cls nonDelimChar))

/-- The `urlPatterns` array of the source, in order. -/
def urlPatterns : List RE := [pat1, pat2, pat3, pat4]

/-! ### Cleaning and collecting extracted URLs -/

/-- The trailing-punctuation class of `replace` with pattern dot, comma,
semicolon, exclamation or question mark anchored at the end. -/
def punctChar (c : Char) : Bool :=
  c == '.' || c == ',' || c == ';' || c == '!' || c == '?'

/-- Punctuation or slash, the class of the all-punctuation test regex. -/
def punctSlashChar (c : Char) : Bool := punctChar c || c == '/'

/-- Strip the maximal trailing run of punctuation characters; models
`replace` with the anchored punctuation-run pattern and empty replacement. -/
def stripTrailingPunct (s : String) : String :=
  String.mk ((s.toList.reverse.dropWhile punctChar).reverse)

/-- The two cleaning steps applied to every raw regex match:
`match.trim()` then stripping trailing punctuation. -/
def cleanMatch (m : String) : String := stripTrailingPunct (jsTrim m)

/-- The test of the anchored all-punctuation-or-slash regex: true iff the
string is non-empty and every character is punctuation or a slash. -/
def isAllPunctSlash (s : String) : Bool :=
  !s.toList.isEmpty && s.toList.all punctSlashChar

/-- Model of `Set.add`: JS sets keep insertion order and drop duplicates. -/
def insertUnique (acc : List String) (s : String) : List String :=
  if s ∈ acc then acc else acc ++ [s]

/-- Embedding of `extractUrlsFromText` (src/index.js lines 167-192): run
the four patterns over the text, clean each raw match, and keep those
longer than two characters that are not made of punctuation and slashes
only, deduplicated in insertion order. -/
def extractUrlsFromText (text : String) : List String :=
  urlPatterns.foldl (fun acc pat =>
    (jsMatch pat text).foldl (fun acc2 m =>
      let cleanUrl := cleanMatch m
      if 2 < cleanUrl.length ∧ isAllPunctSlash cleanUrl = false then
        insertUnique acc2 cleanUrl
      else acc2) acc) []

/-! ### URL parsing and resolution

The source calls the WHATWG URL library (`new URL(url)` and
`new URL(url, base)`), which is an external dependency, not repository
code. The model below implements the fragment of the WHATWG parser the
program exercises: absolute URLs of shape `scheme://host/path?query#frag`
(any valid scheme token followed by `://`), lowercasing of scheme and host,
the empty path normalised to a single slash, and base-relative resolution
of protocol-relative, root-relative, query, fragment and path-relative
references. Scheme-without-slashes URLs, percent-encoding normalisation
and dot-segment collapsing are not modelled; a string the model cannot
parse is treated as the thrown `TypeError` of the library (`none`). -/

structure URLRec where
  scheme : String
  host : String
  pathname : String
  search : String
  fragment : String
deriving Repr, DecidableEq

/-- A character allowed after the first in a URL scheme. -/
def schemeChar (c : Char) : Bool := alnumChar c || c == '+' || c == '-' || c == '.'

/-- Split the part after the host into path, query and fragment characters:
the path runs to the first question mark or hash, the query from a question
mark to the first hash, the fragment after a hash. -/
def pathQueryFrag (rest : List Char) : List Char × List Char × List Char :=
  let p := rest.takeWhile (fun c => c != '?' && c != '#')
  let after := rest.drop p.length
  match after with
  | '?' :: q =>
    (p, q.takeWhile (fun c => c != '#'),
      match q.dropWhile (fun c => c != '#') with
      | '#' :: f => f
      | _ => [])
  | '#' :: f => (p, [], f)
  | _ => (p, [], [])

/-- Models `new URL(url)`: parse an absolute URL, `none` when the library
would throw. -/
def parseURL (url : String) : Option URLRec :=
  match url.toList.takeWhile (fun c => c != ':') with
  | [] => none
  | c0 :: schemeRest =>
    if c0.isAlpha && schemeRest.all schemeChar then
      match url.toList.drop (schemeRest.length + 1) with
      | ':' :: '/' :: '/' :: hostRest =>
        let hostChars := hostRest.takeWhile (fun c => c != '/' && c != '?' && c != '#')
        if hostChars.isEmpty then none
        else
          let (p, q, f) := pathQueryFrag (hostRest.drop hostChars.length)
          some
            { scheme := String.mk ((c0 :: schemeRest).map Char.toLower)
              host := String.mk (hostChars.map Char.toLower)
              pathname := if p.isEmpty then "/" else String.mk p
              search := String.mk q
              fragment := String.mk f }
      | _ => none
    else none

/-- Serialisation of a parsed URL; models the `href` getter. -/
def href (r : URLRec) : String :=
  r.scheme ++ "://" ++ r.host ++ r.pathname ++
    (if r.search = "" then "" else "?" ++ r.search) ++
    (if r.fragment = "" then "" else "#" ++ r.fragment)

/-- The directory part of a path: everything up to and including the last
slash. -/
def dirOf (pathname : String) : String :=
  String.mk ((pathname.toList.reverse.dropWhile (fun c => c != '/')).reverse)

/-- Models `new URL(url, base).href`: absolute URLs are reserialised,
protocol-relative references take the scheme of the base, root-relative,
query, fragment and path-relative references are resolved against the base;
`none` when the library would throw. -/
def tryResolveUrl (url base : String) : Option String :=
  match parseURL url with
  | some r => some (href r)
  | none =>
    match parseURL base with
    | none => none
    | some b =>
      if jsStartsWith url "//" then (parseURL (b.scheme ++ ":" ++ url)).map href
      else if url = "" then some (href b)
      else
        let (p, q, f) := pathQueryFrag url.toList
        if jsStartsWith url "/" then
          some (href { b with pathname := String.mk p, search := String.mk q,
                              fragment := String.mk f })
        else if jsStartsWith url "?" then
          some (href { b with search := String.mk q, fragment := String.mk f })
        else if jsStartsWith url "#" then
          some (href { b with fragment := String.mk f })
        else
          some (href { b with pathname := dirOf b.pathname ++ String.mk p,
                              search := String.mk q, fragment := String.mk f })

/-- The absolutisation step of `extractUrls` (lines 150-158): resolve
against the final response URL, keep the literal string when resolution
throws. -/
def resolveUrl (u responseUrl : String) : String :=
  match tryResolveUrl u responseUrl with
  | some h => h
  | none => u

/-! ### JSON-LD walking and the document scanner -/

/-- A decoded JSON value, the shape `JSON.parse` produces. -/
inductive JsonVal where
  | str (s : String)
  | num (n : Int)
  | bool (b : Bool)
  | null
  | arr (xs : List JsonVal)
  | obj (fields : List (String × JsonVal))

mutual

/-- Embedding of `extractUrlsFromJson` (lines 194-205): strings are fed to
the extractor, objects and arrays are walked recursively over their values
(`for ... in` iterates array indices and object keys), numbers, booleans
and null contribute nothing. -/
def extractUrlsFromJson : JsonVal → List String → List String
  | .str s, urls => (extractUrlsFromText s).foldl insertUnique urls
  | .arr xs, urls => extractUrlsFromJsonList xs urls
  | .obj fs, urls => extractUrlsFromJsonFields fs urls
  | _, urls => urls

/-- Walk every element of a JSON array. -/
def extractUrlsFromJsonList : List JsonVal → List String → List String
  | [], urls => urls
  | x :: xs, urls => extractUrlsFromJsonList xs (extractUrlsFromJson x urls)

/-- Walk every value of a JSON object. -/
def extractUrlsFromJsonFields : List (String × JsonVal) → List String → List String
  | [], urls => urls
  | (_, v) :: fs, urls => extractUrlsFromJsonFields fs (extractUrlsFromJson v urls)

end

/-- Boolean strict lexicographic comparison of character lists; for ASCII
strings this is the default `Array.prototype.sort` comparator order. -/
def charListLt : List Char → List Char → Bool
  | [], [] => false
  | [], _ :: _ => true
  | _ :: _, [] => false
  | a :: as, b :: bs => if a < b then true else if b < a then false else charListLt as bs

def strLt (a b : String) : Bool := charListLt a.toList b.toList

def insertSorted (s : String) : List String → List String
  | [] => [s]
  | t :: ts => if strLt t s then t :: insertSorted s ts else s :: t :: ts

/-- Ascending lexicographic sort; models `Array.from(set).sort()` on the
distinct ASCII strings handled here. -/
def sortStrings (l : List String) : List String :=
  l.foldl (fun acc s => insertSorted s acc) []

/-- The document surfaces `extractUrls` inspects, with the HTML already
parsed: one entry per element attribute value in document order, the text
content of the body, and one entry per JSON-LD script (`none` when its
content fails strict JSON parsing and is ignored). The fetch of the page
and the DOM parse itself are performed by external libraries; their result
is this structure. -/
structure PageDoc where
  attributeValues : List String
  bodyText : String
  jsonLdScripts : List (Option JsonVal)

/-- Embedding of the successful path of `extractUrls` (lines 107-165):
collect extractor results from every non-blank trimmed attribute value,
from the body text, and from every parsed JSON-LD block; absolutise each
collected string against the response URL keeping the literal on failure;
deduplicate and sort. -/
def extractUrls (responseUrl : String) (doc : PageDoc) : List String :=
  let urls := doc.attributeValues.foldl (fun acc value =>
    if jsTrim value ≠ "" then
      (extractUrlsFromText (jsTrim value)).foldl insertUnique acc
    else acc) []
  let urls := (extractUrlsFromText doc.bodyText).foldl insertUnique urls
  let urls := doc.jsonLdScripts.foldl (fun acc script =>
    match script with
    | some json => extractUrlsFromJson json acc
    | none => acc) urls
  let absoluteUrls := urls.foldl (fun acc u => insertUnique acc (resolveUrl u responseUrl)) []
  sortStrings absoluteUrls

/-! ### Font formats and the extension filter -/

/-- One entry of the `FONT_FORMATS` catalog (the `color` field is a
terminal-colouring function and is omitted). -/
structure FontFormat where
  name : String
  display : String
  extensions : List String
deriving Repr, DecidableEq

/-- The `FONT_FORMATS` catalog (lines 68-105). -/
def FONT_FORMATS : List FontFormat :=
  [ { name := "all", display := "All Formats",
      extensions := ["woff2", "woff", "ttf", "otf", "eot"] },
    { name := "woff2", display := "Web Open Font Format 2.0", extensions := ["woff2"] },
    { name := "woff", display := "Web Open Font Format", extensions := ["woff"] },
    { name := "ttf", display := "TrueType Font", extensions := ["ttf"] },
    { name := "otf", display := "OpenType Font", extensions := ["otf"] },
    { name := "eot", display := "Embedded OpenType", extensions := ["eot"] } ]

/-- The extension list a selected format name contributes, via
`FONT_FORMATS.find(f => f.name === formatName)` (lines 459-465). -/
def formatExtensions (formatName : String) : List String :=
  match FONT_FORMATS.find? (fun f => f.name == formatName) with
  | some f => f.extensions
  | none => []

/-- The per-URL predicate of `filterUrlsByExtension` (lines 208-221): parse
the URL, take the final slash-delimited segment of its pathname, and test
whether it ends, case-insensitively, with one of the extensions each
prefixed with a dot unless it already starts with one; a URL the parser
rejects yields false. -/
def keepUrl (extensions : List String) (url : String) : Bool :=
  match parseURL url with
  | none => false
  | some urlObj =>
    let lastSegment := (jsSplit '/' urlObj.pathname).getLastD ""
    extensions.any fun ext =>
      let normalizedExt := if jsStartsWith ext "." then ext else "." ++ ext
      jsEndsWith (jsToLower lastSegment) (jsToLower normalizedExt)

/-- Embedding of `filterUrlsByExtension` (lines 207-222). -/
def filterUrlsByExtension (urls extensions : List String) : List String :=
  urls.filter (keepUrl extensions)

/-! ### Network and retrieval -/

/-- The settled outcome of one `fetch` call, supplied as an oracle: either
the promise rejected with a message, or a response with its `ok` flag,
status code and body bytes. -/
inductive FetchResult where
  | throws (message : String)
  | resp (ok : Bool) (status : Nat) (body : List Nat)
deriving Repr, DecidableEq

/-- Embedding of `testUrl` (lines 224-231): `response.ok` of the HEAD
request, `false` when the fetch throws; total, it never raises. -/
def testUrl (fetch : String → FetchResult) (url : String) : Bool :=
  match fetch url with
  | .throws _ => false
  | .resp ok _ _ => ok

/-- The per-item outcome record of `downloadFontFiles`. -/
structure DownloadOutcome where
  success : Bool
  filename : String
  error : Option String
deriving Repr, DecidableEq

/-- Models `path.join(dir, filename)` for a plain directory and a bare
filename. -/
def pathJoin (dir filename : String) : String := dir ++ "/" ++ filename

/-- Embedding of the per-item operation of `downloadFontFiles`
(lines 274-306). `fetch` is the network oracle; `writeFile` is the
filesystem oracle for `fs.writeFileSync`, returning `none` on success and
the thrown message on failure; the enclosing try-catch converts every
throw into a failure outcome with filename "unknown" (for the URL-parse
throw the library message is modelled as "Invalid URL"). -/
def downloadItem (outputDir : String) (fetch : String → FetchResult)
    (writeFile : String → List Nat → Option String) (url : String) : DownloadOutcome :=
  match parseURL url with
  | none => { success := false, filename := "unknown", error := some "Invalid URL" }
  | some urlObj =>
    let filename := (jsSplit '/' urlObj.pathname).getLastD ""
    if filename = "" then
      { success := false, filename := "unknown", error := some "No filename found" }
    else
      match fetch url with
      | .throws msg => { success := false, filename := "unknown", error := some msg }
      | .resp ok status body =>
        if !ok then
          { success := false, filename := filename, error := some ("HTTP " ++ toString status) }
        else
          match writeFile (pathJoin outputDir filename) body with
          | some msg => { success := false, filename := "unknown", error := some msg }
          | none => { success := true, filename := filename, error := none }

/-- The filename the Retriever derives for a URL (lines 276-278), shared
with the font-item labels of lines 485-505. -/
def destFilename (url : String) : Option String :=
  (parseURL url).map (fun r => (jsSplit '/' r.pathname).getLastD "")

/-- The destination file path of a downloaded URL (line 299). -/
def destPath (outputDir url : String) : Option String :=
  (destFilename url).map (pathJoin outputDir)

/-! ### The batched concurrency executor -/

/-- The consecutive slices `urls.slice(i, i + limit)` taken by the batching
loops of `testUrls` (lines 239-248) and `downloadFontFiles`
(lines 271-309); the program guarantees the limit is at least one
(`CONCURRENCY_LIMIT = Math.max(1, ...)`). -/
def chunked (limit : Nat) (xs : List α) : List (List α) :=
  match xs with
  | [] => []
  | x :: rest =>
    if _h : limit = 0 then []
    else (x :: rest).take limit :: chunked limit ((x :: rest).drop limit)
termination_by xs.length
decreasing_by
  simp only [List.length_drop, List.length_cons]
  omega

/-- The batching loop shared by `testUrls` and `downloadFontFiles`: map the
per-item operation over each chunk (`Promise.all(batch.map(op))`) and
append the chunk results in order (`results.push(...batchResults)`). -/
def runBatched (limit : Nat) (op : α → β) (xs : List α) : List β :=
  ((chunked limit xs).map (List.map op)).flatten

/-- Embedding of `testUrls` (lines 233-262) without the spinner output:
batch-probe every URL, then keep, in order, the ones whose check
succeeded. -/
def testUrls (limit : Nat) (fetch : String → FetchResult) (urls : List String) :
    List String :=
  let results := runBatched limit (fun url => (url, testUrl fetch url)) urls
  (results.filter (fun r => r.2)).map (fun r => r.1)

/-- Embedding of the result list of `downloadFontFiles` (lines 264-309)
without the report printing. -/
def downloadFontFiles (outputDir : String) (limit : Nat)
    (fetch : String → FetchResult) (writeFile : String → List Nat → Option String)
    (urls : List String) : List DownloadOutcome :=
  runBatched limit (downloadItem outputDir fetch writeFile) urls

/-! ### Lemmas about the batching loop -/

theorem chunked_cons (limit : Nat) (hl : limit ≠ 0) (x : α) (rest : List α) :
    chunked limit (x :: rest) =
      (x :: rest).take limit :: chunked limit ((x :: rest).drop limit) := by
  rw [chunked]
  exact dif_neg hl

theorem chunked_flatten (limit : Nat) (hl : limit ≠ 0) :
    ∀ xs : List α, (chunked limit xs).flatten = xs
  | [] => by simp [chunked]
  | x :: rest => by
    rw [chunked_cons limit hl, List.flatten_cons,
      chunked_flatten limit hl ((x :: rest).drop limit), List.take_append_drop]
termination_by xs => xs.length
decreasing_by simp only [List.length_drop, List.length_cons]; omega

theorem chunked_chunk_size (limit : Nat) (hl : limit ≠ 0) :
    ∀ xs : List α, ∀ c ∈ chunked limit xs, c ≠ [] ∧ c.length ≤ limit
  | [] => by simp [chunked]
  | x :: rest => by
    rw [chunked_cons limit hl]
    intro c hc
    rcases List.mem_cons.mp hc with h | h
    · subst h
      refine ⟨?_, by simp [List.length_take]⟩
      cases limit with
      | zero => exact absurd rfl hl
      | succ m => simp
    · exact chunked_chunk_size limit hl ((x :: rest).drop limit) c h
termination_by xs => xs.length
decreasing_by simp only [List.length_drop, List.length_cons]; omega

theorem chunked_dropLast_size (limit : Nat) (hl : limit ≠ 0) :
    ∀ xs : List α, ∀ c ∈ (chunked limit xs).dropLast, c.length = limit
  | [] => by simp [chunked]
  | x :: rest => by
    rw [chunked_cons limit hl]
    cases hrest : chunked limit ((x :: rest).drop limit) with
    | nil => simp
    | cons c2 cs2 =>
      intro c hc
      rw [List.dropLast_cons₂] at hc
      rcases List.mem_cons.mp hc with h | h
      · subst h
        have hd : (x :: rest).drop limit ≠ [] := by
          intro h0
          rw [h0] at hrest
          simp [chunked] at hrest
        have hlen : limit ≤ (x :: rest).length := by
          rcases Nat.le_total limit (x :: rest).length with h1 | h1
          · exact h1
          · exact absurd (List.eq_nil_of_length_eq_zero
              (by simp only [List.length_drop]; omega)) hd
        simp only [List.length_take]
        omega
      · rw [← hrest] at h
        exact chunked_dropLast_size limit hl ((x :: rest).drop limit) c h
termination_by xs => xs.length
decreasing_by simp only [List.length_drop, List.length_cons]; omega

/-- The batching loop computes exactly the sequential map of the per-item
operation over the input list. -/
theorem runBatched_map (limit : Nat) (hl : limit ≠ 0) (op : α → β) (xs : List α) :
    runBatched limit op xs = xs.map op := by
  unfold runBatched
  rw [← List.map_flatten, chunked_flatten limit hl]

/-- C1: for every input list and per-item operation, the batched executor of
`testUrls` and `downloadFontFiles` returns one result per input item at the
same index (it equals the plain map), obtained by partitioning the input
into consecutive chunks of at most `limit` items (all chunks but the last
of size exactly `limit`, chunks concatenating back to the input) and
appending the mapped chunks in order. -/
theorem runBatched_order_and_chunking_claim1 {α β : Type} (limit : Nat)
    (hl : 1 ≤ limit) (op : α → β) (xs : List α) :
    runBatched limit op xs = xs.map op ∧
    (runBatched limit op xs).length = xs.length ∧
    (∀ i : Nat, (runBatched limit op xs)[i]? = xs[i]?.map op) ∧
    runBatched limit op xs = ((chunked limit xs).map (List.map op)).flatten ∧
    (chunked limit xs).flatten = xs ∧
    (∀ c ∈ chunked limit xs, c ≠ [] ∧ c.length ≤ limit) ∧
    (∀ c ∈ (chunked limit xs).dropLast, c.length = limit) := by
  have hl0 : limit ≠ 0 := by omega
  have hmap := runBatched_map limit hl0 op xs
  refine ⟨hmap, ?_, ?_, rfl, chunked_flatten limit hl0 xs,
    chunked_chunk_size limit hl0 xs, chunked_dropLast_size limit hl0 xs⟩
  · rw [hmap, List.length_map]
  · intro i
    rw [hmap, List.getElem?_map]

theorem runBatched_order_and_chunking_claim1_witness :
    1 ≤ 3 ∧
    runBatched 3 (fun n => n * 2) [1, 2, 3, 4, 5, 6, 7] =
      [1, 2, 3, 4, 5, 6, 7].map (fun n => n * 2) :=
  ⟨by decide,
    (runBatched_order_and_chunking_claim1 3 (by decide)
      (fun n => n * 2) [1, 2, 3, 4, 5, 6, 7]).1⟩

/-- C2: a per-item failure never escapes a batch: the probe `testUrl`
returns false on a thrown fetch and on a non-ok response and never raises
(it is a total boolean function of the oracle); every download outcome is
either success-shaped or failure-shaped with an error reason; and the
outcome at index i of a batched download run is a function of the i-th URL
alone, so one item's failure cannot affect its siblings. -/
theorem per_item_failures_contained_claim2 :
    (∀ (fetch : String → FetchResult) (url msg : String),
      fetch url = .throws msg → testUrl fetch url = false) ∧
    (∀ (fetch : String → FetchResult) (url : String) (st : Nat) (body : List Nat),
      fetch url = .resp false st body → testUrl fetch url = false) ∧
    (∀ (outputDir : String) (fetch : String → FetchResult)
      (writeFile : String → List Nat → Option String) (url : String),
      ((downloadItem outputDir fetch writeFile url).success = true ∧
        (downloadItem outputDir fetch writeFile url).error = none) ∨
      ((downloadItem outputDir fetch writeFile url).success = false ∧
        (downloadItem outputDir fetch writeFile url).error.isSome)) ∧
    (∀ (limit : Nat), 1 ≤ limit →
      ∀ (outputDir : String) (fetch : String → FetchResult)
        (writeFile : String → List Nat → Option String) (urls : List String) (i : Nat),
        (downloadFontFiles outputDir limit fetch writeFile urls)[i]? =
          urls[i]?.map (downloadItem outputDir fetch writeFile)) := by
  refine ⟨?_, ?_, ?_, ?_⟩
  · intro fetch url msg h
    simp [testUrl, h]
  · intro fetch url st body h
    simp [testUrl, h]
  · intro outputDir fetch writeFile url
    unfold downloadItem
    cases hp : parseURL url with
    | none => exact Or.inr ⟨rfl, rfl⟩
    | some r =>
      simp only []
      split
      · exact Or.inr ⟨rfl, rfl⟩
      · cases hf : fetch url with
        | throws m => exact Or.inr ⟨rfl, rfl⟩
        | resp ok st body =>
          cases ok with
          | false => exact Or.inr ⟨rfl, rfl⟩
          | true =>
            simp only [Bool.not_true, Bool.false_eq_true, if_false]
            cases hw : writeFile (pathJoin outputDir
                ((jsSplit '/' r.pathname).getLastD "")) body with
            | none => exact Or.inl ⟨rfl, rfl⟩
            | some m => exact Or.inr ⟨rfl, rfl⟩
  · intro limit hlim outputDir fetch writeFile urls i
    unfold downloadFontFiles
    rw [runBatched_map limit (by omega), List.getElem?_map]

theorem per_item_failures_contained_claim2_witness :
    testUrl (fun _ => FetchResult.throws "network down") "https://a.com/x.woff2" = false ∧
    testUrl (fun _ => FetchResult.resp false 404 []) "https://a.com/x.woff2" = false ∧
    (((downloadItem "out" (fun _ => FetchResult.throws "boom") (fun _ _ => none)
        "https://a.com/x.woff2").success = true ∧
      (downloadItem "out" (fun _ => FetchResult.throws "boom") (fun _ _ => none)
        "https://a.com/x.woff2").error = none) ∨
     ((downloadItem "out" (fun _ => FetchResult.throws "boom") (fun _ _ => none)
        "https://a.com/x.woff2").success = false ∧
      (downloadItem "out" (fun _ => FetchResult.throws "boom") (fun _ _ => none)
        "https://a.com/x.woff2").error.isSome)) ∧
    (downloadFontFiles "out" 2 (fun _ => FetchResult.throws "boom") (fun _ _ => none)
        ["https://a.com/x.woff2", "bad"])[1]? =
      (["https://a.com/x.woff2", "bad"] : List String)[1]?.map
        (downloadItem "out" (fun _ => FetchResult.throws "boom") (fun _ _ => none)) :=
  ⟨per_item_failures_contained_claim2.1 _ _ "network down" rfl,
   per_item_failures_contained_claim2.2.1 _ _ 404 [] rfl,
   per_item_failures_contained_claim2.2.2.1 _ _ _ _,
   per_item_failures_contained_claim2.2.2.2 2 (by decide) _ _ _ _ 1⟩

/-! ### The extension filter: refinement against the spec wording -/

/-- Spec-side keep predicate, phrased after the specification: parse as a
URL; derive the last segment as the final slash-delimited component of its
path; the URL is kept iff, case-insensitively, the last segment ends with a
dot followed by some requested extension, extensions normalized by
stripping a leading dot before re-prefixing; URLs that fail to parse are
treated as no match. -/
def specKeepsUrl (extensions : List String) (url : String) : Bool :=
  match parseURL url with
  | none => false
  | some urlObj =>
    let lastSegment := (jsSplit '/' urlObj.pathname).getLastD ""
    extensions.any fun ext =>
      let stripped := if jsStartsWith ext "." then String.mk (ext.toList.drop 1) else ext
      jsEndsWith (jsToLower lastSegment) (jsToLower ("." ++ stripped))

theorem normalizedExt_eq (ext : String) :
    (if jsStartsWith ext "." then ext else "." ++ ext) =
      "." ++ (if jsStartsWith ext "." then String.mk (ext.toList.drop 1) else ext) := by
  by_cases h : jsStartsWith ext "." = true
  · rw [if_pos h, if_pos h]
    unfold jsStartsWith at h
    cases hc : ext.toList with
    | nil =>
      rw [hc] at h
      simp [List.isPrefixOf] at h
    | cons c cs =>
      rw [hc] at h
      simp only [List.isPrefixOf, List.isPrefixOf_nil_left, Bool.and_true] at h
      apply String.ext
      show ext.data = ("." ++ String.mk cs).data
      rw [String.data_append]
      show ext.toList = ".".toList ++ cs
      rw [hc]
      rw [← eq_of_beq h]
      rfl
  · rw [if_neg h, if_neg h]

/-- The inline predicate of `filterUrlsByExtension` agrees with the
spec-side predicate. -/
theorem keepUrl_eq_specKeepsUrl (exts : List String) (u : String) :
    keepUrl exts u = specKeepsUrl exts u := by
  unfold keepUrl specKeepsUrl
  cases parseURL u with
  | none => rfl
  | some r =>
    simp only [normalizedExt_eq]

/-- C3: the Extension Filter returns the order-preserving subsequence of
exactly those URLs that parse and whose final slash-delimited path segment
case-insensitively ends with a dot plus some requested extension
(extensions normalized by stripping a leading dot before re-prefixing);
non-parsing URLs are dropped without error; and the uppercase
`font.WOFF2` URL carrying a query string is kept for extension `woff2`. -/
theorem filterUrlsByExtension_spec_claim3 (urls exts : List String) :
    (filterUrlsByExtension urls exts).Sublist urls ∧
    (∀ u, u ∈ filterUrlsByExtension urls exts ↔ u ∈ urls ∧ specKeepsUrl exts u = true) ∧
    (∀ u, parseURL u = none → u ∉ filterUrlsByExtension urls exts) ∧
    filterUrlsByExtension ["https://cdn.example.com/font.WOFF2?x=1"] ["woff2"] =
      ["https://cdn.example.com/font.WOFF2?x=1"] := by
  refine ⟨List.filter_sublist urls, ?_, ?_, by decide⟩
  · intro u
    unfold filterUrlsByExtension
    rw [List.mem_filter, keepUrl_eq_specKeepsUrl]
  · intro u hp hmem
    have hk := (List.mem_filter.mp hmem).2
    unfold keepUrl at hk
    rw [hp] at hk
    exact Bool.false_ne_true hk

theorem filterUrlsByExtension_spec_claim3_witness :
    filterUrlsByExtension ["https://cdn.example.com/font.WOFF2?x=1"] ["woff2"] =
      ["https://cdn.example.com/font.WOFF2?x=1"] :=
  (filterUrlsByExtension_spec_claim3 ["https://cdn.example.com/font.WOFF2?x=1"]
    ["woff2"]).2.2.2

theorem keepUrl_append (e1 e2 : List String) (u : String) :
    keepUrl (e1 ++ e2) u = (keepUrl e1 u || keepUrl e2 u) := by
  unfold keepUrl
  cases parseURL u with
  | none => rfl
  | some r => simp [List.any_append]

/-- C4: filtering with the extension set of the "all" format equals the
order-preserving filter by the disjunction of the five single formats, and
a URL survives the "all" filter iff it survives the filter of at least one
individual format. -/
theorem filter_all_is_union_claim4 (urls : List String) :
    filterUrlsByExtension urls (formatExtensions "all") =
      urls.filter (fun u =>
        keepUrl (formatExtensions "woff2") u || keepUrl (formatExtensions "woff") u ||
        keepUrl (formatExtensions "ttf") u || keepUrl (formatExtensions "otf") u ||
        keepUrl (formatExtensions "eot") u) ∧
    (∀ u, u ∈ filterUrlsByExtension urls (formatExtensions "all") ↔
      ∃ fmt ∈ (["woff2", "woff", "ttf", "otf", "eot"] : List String),
        u ∈ filterUrlsByExtension urls (formatExtensions fmt)) := by
  have hall : ∀ u, keepUrl (formatExtensions "all") u =
      (keepUrl (formatExtensions "woff2") u || keepUrl (formatExtensions "woff") u ||
       keepUrl (formatExtensions "ttf") u || keepUrl (formatExtensions "otf") u ||
       keepUrl (formatExtensions "eot") u) := by
    intro u
    have : formatExtensions "all" =
        formatExtensions "woff2" ++ formatExtensions "woff" ++ formatExtensions "ttf" ++
        formatExtensions "otf" ++ formatExtensions "eot" := by decide
    rw [this, keepUrl_append, keepUrl_append, keepUrl_append, keepUrl_append]
  constructor
  · exact List.filter_congr (fun u _ => hall u)
  · intro u
    unfold filterUrlsByExtension
    simp only [List.mem_filter, hall u, Bool.or_eq_true]
    constructor
    · rintro ⟨hu, ((((h | h) | h) | h) | h)⟩
      · exact ⟨"woff2", by simp, hu, h⟩
      · exact ⟨"woff", by simp, hu, h⟩
      · exact ⟨"ttf", by simp, hu, h⟩
      · exact ⟨"otf", by simp, hu, h⟩
      · exact ⟨"eot", by simp, hu, h⟩
    · rintro ⟨fmt, hfmt, hu, hk⟩
      refine ⟨hu, ?_⟩
      fin_cases hfmt <;> simp [hk]

theorem filter_all_is_union_claim4_witness :
    filterUrlsByExtension
        ["https://a.com/x.woff2", "https://a.com/y.ttf", "https://a.com/z.png"]
        (formatExtensions "all") =
      ["https://a.com/x.woff2", "https://a.com/y.ttf",
        "https://a.com/z.png"].filter (fun u =>
        keepUrl (formatExtensions "woff2") u || keepUrl (formatExtensions "woff") u ||
        keepUrl (formatExtensions "ttf") u || keepUrl (formatExtensions "otf") u ||
        keepUrl (formatExtensions "eot") u) :=
  (filter_all_is_union_claim4
    ["https://a.com/x.woff2", "https://a.com/y.ttf", "https://a.com/z.png"]).1

/-! ### The Retriever on URLs without a filename -/

/-- When the final slash-delimited segment of the parsed pathname is empty,
the per-item download returns the fixed failure outcome without consulting
the network or filesystem oracles. -/
theorem downloadItem_empty_filename (outputDir : String)
    (fetch : String → FetchResult) (writeFile : String → List Nat → Option String)
    (url : String) (r : URLRec) (hp : parseURL url = some r)
    (hseg : (jsSplit '/' r.pathname).getLastD "" = "") :
    downloadItem outputDir fetch writeFile url =
      { success := false, filename := "unknown", error := some "No filename found" } := by
  unfold downloadItem
  rw [hp]
  simp only [hseg, if_pos]

theorem retrieve_trailing_slash_claim6_counterexample :
    downloadItem "fonts" (fun _ => FetchResult.resp true 200 []) (fun _ _ => none)
        "https://example.com/fonts/" ≠
      { success := false, filename := "unknown", error := some "no filename found" } := by
  decide

/-- C6 (amended): for every URL whose parsed pathname has an empty final
slash-delimited segment, the Retriever's per-item operation returns the
outcome with success false, filename "unknown" and error "No filename
found" (the source capitalises the reason), and the outcome is the same
for every network and filesystem oracle, so no network call is observable
for that item. -/
theorem retrieve_trailing_slash_claim6 (url : String) (r : URLRec)
    (hp : parseURL url = some r)
    (hseg : (jsSplit '/' r.pathname).getLastD "" = "") :
    ∀ (outputDir : String) (fetch : String → FetchResult)
      (writeFile : String → List Nat → Option String),
      downloadItem outputDir fetch writeFile url =
        { success := false, filename := "unknown", error := some "No filename found" } :=
  fun outputDir fetch writeFile =>
    downloadItem_empty_filename outputDir fetch writeFile url r hp hseg

theorem retrieve_trailing_slash_claim6_witness :
    downloadItem "fonts" (fun _ => FetchResult.resp true 200 []) (fun _ _ => none)
        "https://example.com/fonts/" =
      { success := false, filename := "unknown", error := some "No filename found" } :=
  retrieve_trailing_slash_claim6 "https://example.com/fonts/"
    { scheme := "https", host := "example.com", pathname := "/fonts/",
      search := "", fragment := "" } (by decide) (by decide)
    "fonts" (fun _ => FetchResult.resp true 200 []) (fun _ _ => none)

/-! ### Non-empty filenames behind the filter -/

theorem startsWithDot_toList (ext : String) (h : jsStartsWith ext "." = true) :
    ∃ cs, ext.toList = '.' :: cs := by
  unfold jsStartsWith at h
  cases hc : ext.toList with
  | nil => rw [hc] at h; simp [List.isPrefixOf] at h
  | cons c cs =>
    rw [hc] at h
    simp only [List.isPrefixOf, List.isPrefixOf_nil_left, Bool.and_true] at h
    exact ⟨cs, by rw [← eq_of_beq h]⟩

theorem normalizedExt_toList_ne_nil (ext : String) :
    (if jsStartsWith ext "." then ext else "." ++ ext).toList ≠ [] := by
  by_cases hd : jsStartsWith ext "." = true
  · rw [if_pos hd]
    obtain ⟨cs, hcs⟩ := startsWithDot_toList ext hd
    show ext.data ≠ []
    rw [show ext.data = ext.toList from rfl, hcs]
    simp
  · rw [if_neg hd]
    show ("." ++ ext).data ≠ []
    rw [String.data_append]
    simp [String.data]

theorem jsEndsWith_empty (p : String) (hp : p.toList ≠ []) :
    jsEndsWith "" p = false := by
  unfold jsEndsWith
  cases hc : p.toList with
  | nil => exact absurd hc hp
  | cons c cs =>
    show List.isSuffixOf (c :: cs) [] = false
    simp

theorem keepUrl_lastSegment_ne_empty (exts : List String) (u : String)
    (h : keepUrl exts u = true) :
    ∃ r, parseURL u = some r ∧ (jsSplit '/' r.pathname).getLastD "" ≠ "" := by
  unfold keepUrl at h
  cases hp : parseURL u with
  | none => rw [hp] at h; exact absurd h (by simp)
  | some r =>
    rw [hp] at h
    dsimp only at h
    refine ⟨r, rfl, ?_⟩
    intro hseg
    rw [hseg] at h
    simp only [List.any_eq_true] at h
    obtain ⟨ext, _, hend⟩ := h
    rw [show jsToLower "" = "" from rfl] at hend
    have hne : (jsToLower (if jsStartsWith ext "." then ext else "." ++ ext)).toList ≠ [] := by
      show ((if jsStartsWith ext "." then ext else "." ++ ext).toList.map Char.toLower) ≠ []
      simp only [ne_eq, List.map_eq_nil_iff]
      exact normalizedExt_toList_ne_nil ext
    rw [jsEndsWith_empty _ hne] at hend
    exact Bool.false_ne_true hend

/-- C9: every URL surviving the Extension Filter parses and has a
non-empty final slash-delimited path segment, usable both as match target
and destination filename; and a URL without a derivable filename is not
dropped silently by the Retriever but yields the distinct failure outcome
with reason "No filename found". -/
theorem survivors_have_filenames_claim9 :
    (∀ (urls exts : List String) (u : String), u ∈ filterUrlsByExtension urls exts →
      ∃ r, parseURL u = some r ∧ (jsSplit '/' r.pathname).getLastD "" ≠ "") ∧
    (∀ (outputDir url : String) (r : URLRec) (fetch : String → FetchResult)
      (writeFile : String → List Nat → Option String),
      parseURL url = some r → (jsSplit '/' r.pathname).getLastD "" = "" →
      downloadItem outputDir fetch writeFile url =
        { success := false, filename := "unknown", error := some "No filename found" }) := by
  constructor
  · intro urls exts u hu
    exact keepUrl_lastSegment_ne_empty exts u (List.mem_filter.mp hu).2
  · intro outputDir url r fetch writeFile hp hseg
    exact downloadItem_empty_filename outputDir fetch writeFile url r hp hseg

theorem survivors_have_filenames_claim9_witness :
    (∃ r, parseURL "https://a.com/x.woff2" = some r ∧
      (jsSplit '/' r.pathname).getLastD "" ≠ "") ∧
    downloadItem "fonts" (fun _ => FetchResult.resp true 200 []) (fun _ _ => none)
        "https://example.com/fonts/" =
      { success := false, filename := "unknown", error := some "No filename found" } :=
  ⟨survivors_have_filenames_claim9.1 ["https://a.com/x.woff2"] ["woff2"]
      "https://a.com/x.woff2" (by decide),
   survivors_have_filenames_claim9.2 "fonts" "https://example.com/fonts/"
      { scheme := "https", host := "example.com", pathname := "/fonts/",
        search := "", fragment := "" }
      (fun _ => FetchResult.resp true 200 []) (fun _ _ => none) (by decide) (by decide)⟩

/-! ### Filenames never contain query or fragment characters -/

theorem splitCharList_ne_nil (sep : Char) (cs : List Char) :
    splitCharList sep cs ≠ [] := by
  cases cs with
  | nil => simp [splitCharList]
  | cons c0 rest =>
    unfold splitCharList
    by_cases h0 : (c0 == sep) = true
    · simp [h0]
    · rw [if_neg h0]
      cases splitCharList sep rest <;> simp

theorem splitCharList_mem (sep : Char) :
    ∀ (cs g : List Char), g ∈ splitCharList sep cs → ∀ c ∈ g, c ∈ cs ∧ c ≠ sep := by
  intro cs
  induction cs with
  | nil =>
    intro g hg c hc
    simp [splitCharList] at hg
    subst hg
    simp at hc
  | cons c0 rest ih =>
    intro g hg c hc
    unfold splitCharList at hg
    by_cases h0 : (c0 == sep) = true
    · rw [if_pos h0] at hg
      rcases List.mem_cons.mp hg with h | h
      · subst h; simp at hc
      · have := ih g h c hc
        exact ⟨List.mem_cons_of_mem _ this.1, this.2⟩
    · rw [if_neg h0] at hg
      have hc0 : c0 ≠ sep := fun he => h0 (by rw [he]; simp)
      cases hr : splitCharList sep rest with
      | nil =>
        rw [hr] at hg
        simp at hg
        subst hg
        simp at hc
        subst hc
        exact ⟨List.mem_cons_self _ _, hc0⟩
      | cons g0 gs =>
        rw [hr] at hg
        rcases List.mem_cons.mp hg with h | h
        · subst h
          rcases List.mem_cons.mp hc with h | h
          · subst h
            exact ⟨List.mem_cons_self _ _, hc0⟩
          · have := ih g0 (by rw [hr]; exact List.mem_cons_self _ _) c h
            exact ⟨List.mem_cons_of_mem _ this.1, this.2⟩
        · have := ih g (by rw [hr]; exact List.mem_cons_of_mem _ h) c hc
          exact ⟨List.mem_cons_of_mem _ this.1, this.2⟩

theorem getLastD_mem {α : Type _} : ∀ (l : List α) (d : α), l ≠ [] → l.getLastD d ∈ l
  | [], _, h => absurd rfl h
  | a :: l, d, _ => by
    rw [List.getLastD_cons]
    cases l with
    | nil => simp [List.getLastD]
    | cons b m => exact List.mem_cons_of_mem _ (getLastD_mem (b :: m) a (by simp))

theorem getLastD_map_mk : ∀ (l : List (List Char)) (d : List Char), l ≠ [] →
    (l.map String.mk).getLastD (String.mk d) = String.mk (l.getLastD d)
  | [], _, h => absurd rfl h
  | a :: l, d, _ => by
    rw [List.map_cons, List.getLastD_cons, List.getLastD_cons]
    cases l with
    | nil => rfl
    | cons b m => exact getLastD_map_mk (b :: m) a (by simp)

/-- Every character of the final slash-delimited segment of a string
occurs in the string and is not a slash. -/
theorem lastSegment_chars (s : String) :
    ∀ c ∈ ((jsSplit '/' s).getLastD "").toList, c ∈ s.toList ∧ c ≠ '/' := by
  intro c hc
  unfold jsSplit at hc
  rw [show ("" : String) = String.mk [] from rfl,
    getLastD_map_mk _ [] (splitCharList_ne_nil '/' s.toList)] at hc
  have hmem : (splitCharList '/' s.toList).getLastD [] ∈ splitCharList '/' s.toList :=
    getLastD_mem _ _ (splitCharList_ne_nil '/' s.toList)
  exact splitCharList_mem '/' s.toList _ hmem c hc

theorem pathQueryFrag_fst (rest : List Char) :
    (pathQueryFrag rest).1 = rest.takeWhile (fun c => c != '?' && c != '#') := by
  unfold pathQueryFrag
  dsimp only
  split <;> rfl

/-- The pathname a successful parse produces never contains a question mark
or a hash: both terminate the path during parsing. -/
theorem parseURL_pathname_no_query_chars (url : String) (r : URLRec)
    (hp : parseURL url = some r) : ∀ c ∈ r.pathname.toList, c ≠ '?' ∧ c ≠ '#' := by
  unfold parseURL at hp
  split at hp <;> try exact Option.noConfusion hp
  split at hp <;> try exact Option.noConfusion hp
  split at hp <;> try exact Option.noConfusion hp
  next hostRest heq2 =>
    dsimp only at hp
    split at hp <;> try exact Option.noConfusion hp
    split at hp
    all_goals injection hp with hp
    all_goals subst hp
    all_goals intro c hc
    · have hcs : c = '/' := by simpa using hc
      subst hcs
      exact ⟨by decide, by decide⟩
    · dsimp only [String.toList] at hc
      rw [pathQueryFrag_fst] at hc
      have hmem := List.mem_takeWhile_imp hc
      simp only [Bool.and_eq_true, bne_iff_ne, ne_eq] at hmem
      exact hmem

/-- C10: the destination filename comes from the pathname alone: it
contains no question mark, hash or slash, and two URLs whose parses share a
pathname (differing only in query or fragment) are saved to the same
destination path. -/
theorem filename_from_pathname_claim10 :
    (∀ (url fn : String), destFilename url = some fn →
      ∀ c ∈ fn.toList, c ≠ '?' ∧ c ≠ '#' ∧ c ≠ '/') ∧
    (∀ (outputDir u1 u2 : String) (r1 r2 : URLRec),
      parseURL u1 = some r1 → parseURL u2 = some r2 → r1.pathname = r2.pathname →
      destPath outputDir u1 = destPath outputDir u2) := by
  constructor
  · intro url fn hf c hc
    unfold destFilename at hf
    cases hp : parseURL url with
    | none => rw [hp] at hf; exact absurd hf (by simp)
    | some r =>
      rw [hp] at hf
      simp only [Option.map] at hf
      injection hf with hf
      subst hf
      have h1 := lastSegment_chars r.pathname c hc
      have h2 := parseURL_pathname_no_query_chars url r hp c h1.1
      exact ⟨h2.1, h2.2, h1.2⟩
  · intro outputDir u1 u2 r1 r2 h1 h2 hpath
    unfold destPath destFilename
    rw [h1, h2]
    simp only [Option.map]
    rw [hpath]

theorem filename_from_pathname_claim10_witness :
    (('f' : Char) ≠ '?' ∧ ('f' : Char) ≠ '#' ∧ ('f' : Char) ≠ '/') ∧
    destPath "out" "https://a.com/f.woff2?a=1" = destPath "out" "https://a.com/f.woff2#z" :=
  ⟨filename_from_pathname_claim10.1 "https://a.com/dir/file.woff2?v=1" "file.woff2"
      (by decide) 'f' (by decide),
   filename_from_pathname_claim10.2 "out" "https://a.com/f.woff2?a=1"
      "https://a.com/f.woff2#z"
      { scheme := "https", host := "a.com", pathname := "/f.woff2",
        search := "a=1", fragment := "" }
      { scheme := "https", host := "a.com", pathname := "/f.woff2",
        search := "", fragment := "z" }
      (by decide) (by decide) rfl⟩

/-! ### Cleanliness of every extracted string -/

theorem insertUnique_mem (acc : List String) (s u : String)
    (h : u ∈ insertUnique acc s) : u ∈ acc ∨ u = s := by
  unfold insertUnique at h
  by_cases hs : s ∈ acc
  · rw [if_pos hs] at h
    exact Or.inl h
  · rw [if_neg hs] at h
    rcases List.mem_append.mp h with h | h
    · exact Or.inl h
    · exact Or.inr (by simpa using h)

theorem mem_clean_fold (ms : List String) :
    ∀ (acc : List String) (u : String),
    u ∈ ms.foldl (fun acc2 m =>
      let cleanUrl := cleanMatch m
      if 2 < cleanUrl.length ∧ isAllPunctSlash cleanUrl = false then
        insertUnique acc2 cleanUrl
      else acc2) acc →
    u ∈ acc ∨ ∃ m ∈ ms, u = cleanMatch m ∧
      2 < (cleanMatch m).length ∧ isAllPunctSlash (cleanMatch m) = false := by
  induction ms with
  | nil => exact fun acc u h => Or.inl h
  | cons m ms ih =>
    intro acc u h
    rw [List.foldl_cons] at h
    rcases ih _ u h with h1 | h1
    · dsimp only at h1
      by_cases hc : 2 < (cleanMatch m).length ∧ isAllPunctSlash (cleanMatch m) = false
      · rw [if_pos hc] at h1
        rcases insertUnique_mem _ _ _ h1 with h2 | h2
        · exact Or.inl h2
        · exact Or.inr ⟨m, List.mem_cons_self _ _, h2, hc⟩
      · rw [if_neg hc] at h1
        exact Or.inl h1
    · obtain ⟨m1, hm1, rest⟩ := h1
      exact Or.inr ⟨m1, List.mem_cons_of_mem _ hm1, rest⟩

theorem mem_pattern_fold (text : String) (pats : List RE) :
    ∀ (acc : List String) (u : String),
    u ∈ pats.foldl (fun acc pat =>
      (jsMatch pat text).foldl (fun acc2 m =>
        let cleanUrl := cleanMatch m
        if 2 < cleanUrl.length ∧ isAllPunctSlash cleanUrl = false then
          insertUnique acc2 cleanUrl
        else acc2) acc) acc →
    u ∈ acc ∨ ∃ p ∈ pats, ∃ m ∈ jsMatch p text, u = cleanMatch m ∧
      2 < (cleanMatch m).length ∧ isAllPunctSlash (cleanMatch m) = false := by
  induction pats with
  | nil => exact fun acc u h => Or.inl h
  | cons p ps ih =>
    intro acc u h
    rw [List.foldl_cons] at h
    rcases ih _ u h with h1 | h1
    · rcases mem_clean_fold (jsMatch p text) acc u h1 with h2 | h2
      · exact Or.inl h2
      · obtain ⟨m, hm, rest⟩ := h2
        exact Or.inr ⟨p, List.mem_cons_self _ _, m, hm, rest⟩
    · obtain ⟨p1, hp1, rest⟩ := h1
      exact Or.inr ⟨p1, List.mem_cons_of_mem _ hp1, rest⟩

/-- C7: every string the extractor returns has length strictly greater than
two, is not composed entirely of punctuation and slash characters, and is
the whitespace-trimmed, trailing-punctuation-stripped form of a raw match
of one of the four URL patterns run over the input text. -/
theorem extracted_strings_clean_claim7 (text u : String)
    (hu : u ∈ extractUrlsFromText text) :
    2 < u.length ∧ isAllPunctSlash u = false ∧
    ∃ p ∈ urlPatterns, ∃ m ∈ jsMatch p text, u = cleanMatch m := by
  unfold extractUrlsFromText at hu
  rcases mem_pattern_fold text urlPatterns [] u hu with h | h
  · simp at h
  · obtain ⟨p, hp, m, hm, hu1, hlen, hpunct⟩ := h
    subst hu1
    exact ⟨hlen, hpunct, p, hp, m, hm, rfl⟩

theorem extracted_strings_clean_claim7_witness :
    2 < ("a.io" : String).length ∧ isAllPunctSlash "a.io" = false ∧
    ∃ p ∈ urlPatterns, ∃ m ∈ jsMatch p "a.io", "a.io" = cleanMatch m :=
  extracted_strings_clean_claim7 "a.io" "a.io" (by decide)

/-! ### The extractor is not idempotent -/

/-- A second extraction pass over a result set, as the idempotence property
reads it: extract from each already-extracted string and union the
results. -/
def secondPassOf (l : List String) : List String :=
  l.foldl (fun acc u => (extractUrlsFromText u).foldl insertUnique acc) []

theorem extractor_second_pass_claim8_counterexample :
    "b.woff" ∈ secondPassOf (extractUrlsFromText "a.com/b.woff2") ∧
    "b.woff" ∉ extractUrlsFromText "a.com/b.woff2" := by
  decide

/-- C8 (amended): the extractor is not idempotent. For the input
"a.com/b.woff2" the first pass returns exactly "a.com/b.woff2" and
"/b.woff2"; rescanning that result set additionally produces "b.woff",
because the bare-hostname pattern matches inside "/b.woff2" at an offset
the global scan of the first pass had already passed over (non-overlapping
matching consumed it inside a longer match), so the second pass is a
strict superset, not a subset, of the first. -/
theorem extractor_second_pass_claim8 :
    extractUrlsFromText "a.com/b.woff2" = ["a.com/b.woff2", "/b.woff2"] ∧
    secondPassOf (extractUrlsFromText "a.com/b.woff2") =
      ["a.com/b.woff2", "/b.woff2", "b.woff"] := by
  decide

/-! ### The document-scanner scenario -/

/-- The page of the scanner scenario: the response URL after redirects. -/
def claim5PageUrl : String := "https://page-origin/"

/-- The scenario page as the DOM walk of `extractUrls` sees it: the `src`
attribute of the img element and the `type` attribute of the JSON-LD script
element (the html, head and body wrapper elements carry no attributes), the
body text, and the parsed JSON-LD block. -/
def claim5Doc : PageDoc :=
  { attributeValues := ["/fonts/a.woff2", "application/ld+json"]
    bodyText := "see https://cdn.example.com/b.ttf now"
    jsonLdScripts := [some (.obj [("font", .str "https://cdn.example.com/c.otf")])] }

theorem scanner_scenario_claim5_counterexample :
    extractUrls claim5PageUrl claim5Doc ≠
      ["https://cdn.example.com/b.ttf", "https://cdn.example.com/c.otf",
        "https://page-origin/fonts/a.woff2"] := by
  decide

/-- C5 (amended): on the scenario page the scanner returns a sorted list
that contains the three expected URLs but also four further entries: the
overlapping bare-hostname matches of the two absolute URLs resolved
against the page origin, the spurious "a.woff" sub-match of the img path,
and the "/ld+json" tail of the script's type attribute — seven entries in
all, exactly the list below. -/
theorem scanner_scenario_claim5 :
    extractUrls claim5PageUrl claim5Doc =
      ["https://cdn.example.com/b.ttf",
       "https://cdn.example.com/c.otf",
       "https://page-origin/a.woff",
       "https://page-origin/cdn.example.com/b.ttf",
       "https://page-origin/cdn.example.com/c.otf",
       "https://page-origin/fonts/a.woff2",
       "https://page-origin/ld+json"] := by
  decide

end Typeologist
